import Mathlib

/-!
Verification development for the soft_matrix stereo-to-surround upmixer.

This file gives a shallow embedding of the parts of the program that the
checked properties are about:

* options.rs        : channel layouts, matrix-format selection, the
                      lowest-steered-frequency versus LFE validation, decibel
                      conversion, headroom parsing.
* panner_and_writer.rs : the LFE per-bin gain curve, the per-window sample
                      emission logic of the writer (which absolute sample
                      indices are written, from which transform positions),
                      the per-channel scale and gain applied to written
                      samples, and the output-file routing.
* upmixer.rs        : the per-bin pan (back-to-front) estimation, the
                      out-of-order reassembly of analyses into an ordered
                      queue, and the temporal averaging of pans.

Machine floats (f32 / f64) are modelled as exact rationals where only field
arithmetic and comparisons occur, and as real numbers where transcendental
functions (cos, atan2 via Complex.arg, powers of ten) occur.  Vectors indexed
in place are modelled either as lists or as functions updated pointwise.
-/

namespace SoftMatrix

/- ===================== options.rs ===================== -/

/-- Channel layout selected by the -channels flag (options.rs enum ChannelLayout). -/
inductive ChannelLayout
  | Four
  | Five
  | FiveOne
  deriving DecidableEq

/-- Matrix format selected by the -matrix flag (options.rs enum MatrixFormat). -/
inductive MatrixFormat
  | Default
  | QS
  | HorseShoe
  | DolbyStereo
  | SQ
  | SQExperimental
  deriving DecidableEq

/-- The channel flags of wave_stream Channels that options.rs sets (only the six
channels the program produces are modelled). -/
structure Channels where
  front_left : Bool
  front_right : Bool
  front_center : Bool
  low_frequency : Bool
  back_left : Bool
  back_right : Bool
  deriving DecidableEq

/-- The concrete decode-matrix policy constructor invoked by Options::parse
(options.rs lines 305-312).  The constructors themselves live in matrix.rs,
outside the embedded sources, so they are represented by tags naming which
constructor is called. -/
inductive MatrixImpl
  | DefaultNew
  | DefaultQs
  | DefaultHorseshoe
  | DefaultDolbyStereo
  | SQMatrixSq
  | SQMatrixExperimentalSq
  deriving DecidableEq

/-- The if-else chain interpreting the value of the -matrix flag
(options.rs lines 150-176); an unknown name makes parse return None. -/
def parseMatrixFlagValue (matrix_format_string : String) : Option MatrixFormat :=
  if matrix_format_string = "default" then some MatrixFormat.Default
  else if matrix_format_string = "qs" then some MatrixFormat.QS
  else if matrix_format_string = "rm" then some MatrixFormat.QS
  else if matrix_format_string = "horseshoe" then some MatrixFormat.HorseShoe
  else if matrix_format_string = "dolby" then some MatrixFormat.DolbyStereo
  else if matrix_format_string = "sq" then some MatrixFormat.SQ
  else if matrix_format_string = "sqexperimental" then some MatrixFormat.SQExperimental
  else none

/-- The match arm selecting the decode-matrix constructor from the parsed
MatrixFormat (options.rs lines 305-312). -/
def chooseMatrix : MatrixFormat → MatrixImpl
  | MatrixFormat.Default => MatrixImpl.DefaultNew
  | MatrixFormat.QS => MatrixImpl.DefaultQs
  | MatrixFormat.HorseShoe => MatrixImpl.DefaultHorseshoe
  | MatrixFormat.DolbyStereo => MatrixImpl.DefaultDolbyStereo
  | MatrixFormat.SQ => MatrixImpl.SQMatrixSq
  | MatrixFormat.SQExperimental => MatrixImpl.SQMatrixExperimentalSq

/-- The match on channel_layout in Options::parse (options.rs lines 275-303):
yields (transform_mono, channels). -/
def channelsFor : ChannelLayout → Bool × Channels
  | ChannelLayout.Four =>
    (false,
      { front_left := true, front_right := true, front_center := false,
        low_frequency := false, back_left := true, back_right := true })
  | ChannelLayout.Five =>
    (true,
      { front_left := true, front_right := true, front_center := true,
        low_frequency := false, back_left := true, back_right := true })
  | ChannelLayout.FiveOne =>
    (true,
      { front_left := true, front_right := true, front_center := true,
        low_frequency := true, back_left := true, back_right := true })

/-- LFE_START cutoff in Hz (panner_and_writer.rs line 8). -/
def LFE_START : ℚ := 40

/-- LFE_FULL cutoff in Hz (panner_and_writer.rs line 9). -/
def LFE_FULL : ℚ := 20

/-- The fields of Options that the validated tail of Options::parse computes
(paths, thread counts and other passthrough fields are omitted). -/
structure OptionsCore where
  transform_mono : Bool
  channels : Channels
  matrix : MatrixImpl
  low_frequency : ℚ
  loud : Bool
  headroom : Option ℚ
  deriving DecidableEq

/-- The tail of Options::parse once the flag loop has consumed all arguments
(options.rs lines 270-349): interprets the channel layout, picks the matrix
constructor, rejects a lowest-steered frequency above LFE_START when an LFE
channel is requested, and resolves the loud flag. -/
def interpretSettings (channel_layout : ChannelLayout) (matrix_format : MatrixFormat)
    (low_frequency : ℚ) (loud : Option Bool) (headroom : Option ℚ) : Option OptionsCore :=
  let tc := channelsFor channel_layout
  let transform_mono := tc.1
  let channels := tc.2
  let matrix := chooseMatrix matrix_format
  if low_frequency > LFE_START ∧ channels.low_frequency = true then none
  else
    let loudResolved : Option Bool :=
      if transform_mono then some (loud.getD false)
      else if loud.isSome then none
      else some true
    match loudResolved with
    | none => none
    | some l =>
      some { transform_mono := transform_mono, channels := channels, matrix := matrix,
             low_frequency := low_frequency, loud := l, headroom := headroom }

/-- The -headroom flag handler (options.rs lines 109-130): rejects a negative
value and stores the negated value. -/
def parseHeadroomFlagValue (head : ℚ) : Option ℚ :=
  if head < 0 then none else some (0 - head)

/- ===================== panner_and_writer.rs: file routing ===================== -/

/-- Output file index for an absolute output sample index
(panner_and_writer.rs line 527). -/
def out_file_index (sample_ctr max_samples_in_file : ℕ) : ℕ :=
  sample_ctr / max_samples_in_file

/-- In-file offset for an absolute output sample index
(panner_and_writer.rs line 528). -/
def sample_ctr_in_file (sample_ctr max_samples_in_file : ℕ) : ℕ :=
  sample_ctr - max_samples_in_file * out_file_index sample_ctr max_samples_in_file

/- ===================== panner_and_writer.rs: per-window emission ===================== -/

/-- The branch of perform_backwards_transform_and_write_samples that decides
which (absolute sample index, transform position) pairs are written for one
dequeued averaged window (panner_and_writer.rs lines 413-465).  Natural
subtraction models usize subtraction; every window fed in by the pipeline has
last_sample_ctr at least window_midpoint, so no truncation occurs there. -/
def writesForWindow (window_size window_midpoint total_samples_to_write last_sample_ctr : ℕ) :
    List (ℕ × ℕ) :=
  let sample_ctr := last_sample_ctr - window_midpoint
  if sample_ctr = window_midpoint then
    -- Special case for the beginning of the file
    (List.range sample_ctr).map (fun s => (s, s))
  else if last_sample_ctr = total_samples_to_write - 1 then
    -- Special case for the end of the file
    let first_sample_in_transform := total_samples_to_write - window_size - 1
    (List.range' (window_midpoint - 2) (window_size - (window_midpoint - 2))).map
      (fun sample_in_transform =>
        (first_sample_in_transform + sample_in_transform, sample_in_transform))
  else
    [(sample_ctr, window_midpoint)]

/-- Modelled from the spec: the stream of last_sample_ctr tags of the averaged
windows handed to the writer.  The upmixer stage that produces this stream is
not among the embedded sources; per spec sections 4.3 and 4.6 the reassembly
stage guarantees a gap-free, one-per-input-sample sequence of averaged
windows, the first of which triggers the writer's beginning-of-file case
(sample_ctr equal to window_midpoint, so last_sample_ctr equal to
window_size) and the last of which carries last_sample_ctr equal to
total_samples_to_write - 1. -/
def windowStream (window_size total_samples_to_write : ℕ) : List ℕ :=
  List.range' window_size (total_samples_to_write - window_size)

/-- All absolute sample indices written during a run, in write order. -/
def writtenIndexList (window_size window_midpoint total_samples_to_write : ℕ) : List ℕ :=
  ((windowStream window_size total_samples_to_write).map
    (fun last_sample_ctr =>
      (writesForWindow window_size window_midpoint total_samples_to_write last_sample_ctr).map
        Prod.fst)).flatten

/-- C2: the claim says that for an input of L samples every absolute index
0..L-1 is written exactly once and the running counter ends at L.  Evaluating
the writer's emission logic on a run with window_size 8 (midpoint 4) and
L = 16 shows the counter does end at L = 16, but index 4 and index 15 are
never written while indices 9 and 10 are each written twice: the
beginning-of-file branch stops one sample before its own midpoint, and the
end-of-file branch starts its copy two positions early with an absolute base
off by one. -/
theorem C2_sample_conservation_fails :
    (writtenIndexList 8 4 16).length = 16 ∧
    (writtenIndexList 8 4 16).count 4 = 0 ∧
    (writtenIndexList 8 4 16).count 15 = 0 ∧
    (writtenIndexList 8 4 16).count 9 = 2 ∧
    (writtenIndexList 8 4 16).count 10 = 2 := by
  refine ⟨?_, ?_, ?_, ?_, ?_⟩ <;> decide

/-- C3: the claim says the window with last_sample_ctr = L - 1 emits exactly
the transform positions midpoint..window_size-1, mapped to the trailing
absolute indices.  With window_size 8 (midpoint 4) and L = 16 the code
instead emits positions 2..7 (two extra) mapped to absolute indices 9..14
(one short of the trailing run 12..15), because the loop starts at
midpoint - 2 and the base is total - window_size - 1 instead of
total - window_size. -/
theorem C3_last_window_emission_fails :
    writesForWindow 8 4 16 15 =
      [(9, 2), (10, 3), (11, 4), (12, 5), (13, 6), (14, 7)] ∧
    writesForWindow 8 4 16 15 ≠ [(12, 4), (13, 5), (14, 6), (15, 7)] := by
  refine ⟨?_, ?_⟩ <;> decide

/-- C8: a written sample with absolute index i and per-file cap C goes to
output file i / C at in-file offset i % C, as a pure function of i and C. -/
theorem C8_file_split (sample_ctr max_samples_in_file : ℕ) :
    out_file_index sample_ctr max_samples_in_file = sample_ctr / max_samples_in_file ∧
    sample_ctr_in_file sample_ctr max_samples_in_file = sample_ctr % max_samples_in_file := by
  refine ⟨rfl, ?_⟩
  show sample_ctr - max_samples_in_file * (sample_ctr / max_samples_in_file) =
    sample_ctr % max_samples_in_file
  exact tsub_eq_of_eq_add (Nat.mod_add_div sample_ctr max_samples_in_file).symm

/-- C9: with an LFE channel requested (5.1 layout), a lowest-steered
frequency above LFE_START = 40 makes Options::parse return None, while a
value at or below 40 is not rejected (parse succeeds). -/
theorem C9_low_frequency_lfe_check (matrix_format : MatrixFormat) (low_frequency : ℚ)
    (loud : Option Bool) (headroom : Option ℚ) :
    (low_frequency > 40 →
      interpretSettings ChannelLayout.FiveOne matrix_format low_frequency loud headroom =
        none) ∧
    (low_frequency ≤ 40 →
      (interpretSettings ChannelLayout.FiveOne matrix_format low_frequency loud
        headroom).isSome) := by
  constructor
  · intro h
    simp [interpretSettings, channelsFor, LFE_START, h]
  · intro h
    simp [interpretSettings, channelsFor, LFE_START, not_lt.mpr h]

/-- Witness for C9 at concrete inputs: 50 Hz is rejected, 30 Hz is accepted. -/
theorem C9_low_frequency_lfe_check_witness :
    interpretSettings ChannelLayout.FiveOne MatrixFormat.Default 50 none none = none ∧
    (interpretSettings ChannelLayout.FiveOne MatrixFormat.Default 30 none none).isSome :=
  ⟨(C9_low_frequency_lfe_check MatrixFormat.Default 50 none none).1 (by norm_num),
   (C9_low_frequency_lfe_check MatrixFormat.Default 30 none none).2 (by norm_num)⟩

/-- C10: the undocumented matrix name rm is an exact alias of qs: both parse
to MatrixFormat.QS, which selects the DefaultMatrix::qs() constructor. -/
theorem C10_rm_is_qs_alias :
    parseMatrixFlagValue "rm" = parseMatrixFlagValue "qs" ∧
    parseMatrixFlagValue "rm" = some MatrixFormat.QS ∧
    chooseMatrix MatrixFormat.QS = MatrixImpl.DefaultQs := by
  refine ⟨?_, ?_, rfl⟩ <;> decide

/- ===================== upmixer.rs: data model ===================== -/

/-- The per-bin pan estimate of the analysis stage (struct FrequencyPosition):
only the back-to-front position, an f32 modelled as a rational. -/
structure FrequencyPosition where
  back_to_front : ℚ
  deriving DecidableEq

/-- One analysed window (struct TransformedWindowAndPans of upmixer.rs):
the tag of the window, the two forward transforms (complex f32 samples
modelled as pairs of rationals) and one pan per bin. -/
structure TransformedWindowAndPans where
  sample_ctr : ℕ
  left_transformed : List (ℚ × ℚ)
  right_transformed : List (ℚ × ℚ)
  frequency_positions : List FrequencyPosition
  deriving DecidableEq

/-- Out-of-range indexing default; the source panics out of range instead,
and every theorem below keeps its indices in range. -/
def emptyWindowAndPans : TransformedWindowAndPans :=
  { sample_ctr := 0, left_transformed := [], right_transformed := [],
    frequency_positions := [] }

/- ===================== upmixer.rs: enqueue_and_average, reassembly half ===================== -/

/-- One interaction with the reassembly state of enqueue_and_average
(upmixer.rs lines 415-451) as seen under its mutexes.  Only the sample_ctr
tags matter for ordering, so the pending mapping is modelled by its key set
and the ordered queue by the list of tags it holds. -/
inductive ReassemblyOp
  | insertAnalysis (sample_ctr : ℕ)
  | reassemble
  | consumeOldest

/-- The ordering-relevant shared state: the key set of
transformed_window_and_pans_by_sample, the tags already popped from the front
of transformed_window_and_pans_queue by the averaging half, and the tags
still in that queue. -/
structure ReassemblyState where
  by_sample : Finset ℕ
  consumed : List ℕ
  queue : List ℕ

/-- upmixer.rs lines 430-433: the next expected tag is one past the tag at
the back of the ordered queue, or 0 for an empty queue. -/
def nextSampleCtrOf (queue : List ℕ) : ℕ :=
  match queue.getLast? with
  | some last_window => last_window + 1
  | none => 0

/-- The drain loop of upmixer.rs lines 441-450: repeatedly remove the next
expected tag from the pending map and push it onto the back of the ordered
queue.  The fuel argument is the size of the pending map, which bounds the
number of iterations the while loop can make. -/
def drainFuel : ℕ → Finset ℕ → List ℕ → ℕ → Finset ℕ × List ℕ
  | 0, by_sample, queue, _ => (by_sample, queue)
  | fuel + 1, by_sample, queue, next_sample_ctr =>
    if next_sample_ctr ∈ by_sample then
      drainFuel fuel (by_sample.erase next_sample_ctr) (queue ++ [next_sample_ctr])
        (next_sample_ctr + 1)
    else (by_sample, queue)

/-- The reassembly critical section: compute the next expected tag from the
back of the queue, then drain the pending map into the queue. -/
def drainPending (by_sample : Finset ℕ) (queue : List ℕ) : Finset ℕ × List ℕ :=
  drainFuel by_sample.card by_sample queue (nextSampleCtrOf queue)

/-- Effect of one operation on the reassembly state.  Inserting an analysis
adds its tag to the pending map (upmixer.rs lines 278-288); the reassembly
section drains the map; the averaging half pops the front of the ordered
queue, but only while the queue holds at least window_size entries
(upmixer.rs lines 457 and 500). -/
def applyReassemblyOp (window_size : ℕ) (s : ReassemblyState) :
    ReassemblyOp → ReassemblyState
  | ReassemblyOp.insertAnalysis i => { s with by_sample := insert i s.by_sample }
  | ReassemblyOp.reassemble =>
    let r := drainPending s.by_sample s.queue
    { s with by_sample := r.1, queue := r.2 }
  | ReassemblyOp.consumeOldest =>
    if window_size ≤ s.queue.length then
      { s with consumed := s.consumed ++ s.queue.take 1, queue := s.queue.drop 1 }
    else s

/-- Run a sequence of operations from the initial (empty) shared state. -/
def runReassembly (window_size : ℕ) (ops : List ReassemblyOp) : ReassemblyState :=
  ops.foldl (applyReassemblyOp window_size) ⟨∅, [], []⟩

/-- The tags ever appended to the ordered queue, in append order: those
already consumed by averaging followed by those still queued. -/
def enqueuedHistory (s : ReassemblyState) : List ℕ :=
  s.consumed ++ s.queue

/-- The invariant of the reassembly state: the append history is an initial
segment of the naturals, and the queue only empties when nothing was ever
appended. -/
def ReassemblyInv (s : ReassemblyState) : Prop :=
  (∃ n, enqueuedHistory s = List.range n) ∧ (s.queue = [] → s.consumed = [])

theorem drainFuel_snd (fuel : ℕ) :
    ∀ (by_sample : Finset ℕ) (queue : List ℕ) (next : ℕ),
      ∃ k, (drainFuel fuel by_sample queue next).2 = queue ++ List.range' next k := by
  induction fuel with
  | zero =>
    intro by_sample queue next
    exact ⟨0, by simp [drainFuel]⟩
  | succ fuel ih =>
    intro by_sample queue next
    by_cases h : next ∈ by_sample
    · obtain ⟨k, hk⟩ := ih (by_sample.erase next) (queue ++ [next]) (next + 1)
      refine ⟨k + 1, ?_⟩
      rw [drainFuel, if_pos h, hk, List.range'_succ]
      simp
    · exact ⟨0, by simp [drainFuel, h]⟩

theorem reassemblyInv_preserved (window_size : ℕ) (hws : 2 ≤ window_size)
    (s : ReassemblyState) (op : ReassemblyOp) (hs : ReassemblyInv s) :
    ReassemblyInv (applyReassemblyOp window_size s op) := by
  obtain ⟨⟨n, hn⟩, hq⟩ := hs
  cases op with
  | insertAnalysis i =>
    exact ⟨⟨n, hn⟩, hq⟩
  | reassemble =>
    have hnext : nextSampleCtrOf s.queue = n := by
      rcases List.eq_nil_or_concat s.queue with hnil | ⟨l, a, hcons⟩
      · have hc := hq hnil
        have : enqueuedHistory s = [] := by simp [enqueuedHistory, hnil, hc]
        rw [this] at hn
        have : n = 0 := by
          by_contra hzero
          exact absurd hn.symm (by simp [List.range_eq_nil, hzero])
        simp [nextSampleCtrOf, hnil, this]
      · -- the queue ends in some tag a, which is also the last history entry
        have hlast : (enqueuedHistory s).getLast? = some a := by
          simp [enqueuedHistory, hcons]
        rw [hn] at hlast
        have hn0 : n ≠ 0 := by
          rintro rfl
          simp at hlast
        have : (List.range n).getLast? = some (n - 1) := by
          rw [List.getLast?_eq_getElem?, List.length_range, List.getElem?_range (by omega)]
        rw [this] at hlast
        have ha : a = n - 1 := by simpa using hlast.symm
        have : nextSampleCtrOf s.queue = a + 1 := by simp [nextSampleCtrOf, hcons]
        omega
    obtain ⟨k, hk⟩ := drainFuel_snd s.by_sample.card s.by_sample s.queue
      (nextSampleCtrOf s.queue)
    constructor
    · refine ⟨n + k, ?_⟩
      simp only [applyReassemblyOp, enqueuedHistory, drainPending]
      rw [hk, hnext, ← List.append_assoc]
      have : s.consumed ++ s.queue = List.range n := hn
      rw [this]
      rw [List.range_eq_range', List.range_eq_range', Nat.add_comm n k]
      simpa using List.range'_append 0 n k 1
    · intro hempty
      simp only [applyReassemblyOp, drainPending] at hempty
      rw [hk] at hempty
      have : s.queue = [] := by
        rcases List.append_eq_nil.mp hempty with ⟨h1, _⟩
        exact h1
      exact hq this
  | consumeOldest =>
    by_cases hlen : window_size ≤ s.queue.length
    · constructor
      · refine ⟨n, ?_⟩
        simp only [applyReassemblyOp, if_pos hlen, enqueuedHistory]
        rw [List.append_assoc, List.take_append_drop]
        exact hn
      · intro hempty
        simp only [applyReassemblyOp, if_pos hlen] at hempty
        have : s.queue.length - 1 = 0 := by
          simpa using congrArg List.length hempty
        omega
    · simpa [applyReassemblyOp, if_neg hlen] using And.intro ⟨n, hn⟩ hq

theorem reassemblyInv_run (window_size : ℕ) (hws : 2 ≤ window_size)
    (ops : List ReassemblyOp) :
    ∀ s : ReassemblyState, ReassemblyInv s →
      ReassemblyInv (ops.foldl (applyReassemblyOp window_size) s) := by
  induction ops with
  | nil => intro s hs; exact hs
  | cons op ops ih =>
    intro s hs
    exact ih _ (reassemblyInv_preserved window_size hws s op hs)

/-- C5: regardless of the order in which completed analyses are inserted into
the pending map and of how reassembly passes and averaging pops interleave,
the sequence of sample_ctr tags ever appended to the ordered queue is exactly
0, 1, 2, ... with no tag skipped, duplicated or out of order. -/
theorem C5_reassembly_gap_free (window_size : ℕ) (ops : List ReassemblyOp)
    (hws : 2 ≤ window_size) :
    ∃ n, enqueuedHistory (runReassembly window_size ops) = List.range n := by
  have init : ReassemblyInv ⟨∅, [], []⟩ :=
    ⟨⟨0, by simp [enqueuedHistory]⟩, fun _ => rfl⟩
  exact (reassemblyInv_run window_size hws ops _ init).1

/-- A concrete interleaving for C5: tags 1, 0, 2 inserted out of order, two
reassembly passes, history comes out as 0, 1, 2. -/
def sampleReassemblyOps : List ReassemblyOp :=
  [ReassemblyOp.insertAnalysis 1, ReassemblyOp.insertAnalysis 0,
   ReassemblyOp.reassemble, ReassemblyOp.insertAnalysis 2, ReassemblyOp.reassemble]

/-- Witness for C5: the theorem applied at window_size 4 to a concrete
out-of-order insertion schedule, together with the evaluated history. -/
theorem C5_reassembly_gap_free_witness :
    2 ≤ 4 ∧
    (∃ n, enqueuedHistory (runReassembly 4 sampleReassemblyOps) = List.range n) ∧
    enqueuedHistory (runReassembly 4 sampleReassemblyOps) = [0, 1, 2] :=
  ⟨by norm_num, C5_reassembly_gap_free 4 sampleReassemblyOps (by norm_num), by decide⟩

/- ===================== upmixer.rs: enqueue_and_average, averaging half ===================== -/

/-- The back_to_front pan of bin freq_ctr of the window at position
sample_ctr of the ordered queue, as read by the summing loop of
enqueue_and_average (upmixer.rs lines 464-466). -/
def panAt (queue : List TransformedWindowAndPans) (sample_ctr freq_ctr : ℕ) : ℚ :=
  ((queue.getD sample_ctr emptyWindowAndPans).frequency_positions.getD freq_ctr
    { back_to_front := 0 }).back_to_front

/-- The nested summing loops of upmixer.rs lines 458-469: a vector of
midpoint accumulators, each position incremented once per queue entry.  The
accumulator vector is modelled as a function updated pointwise. -/
def sumPansFun (window_size midpoint : ℕ) (queue : List TransformedWindowAndPans) : ℕ → ℚ :=
  (List.range window_size).foldl
    (fun acc sample_ctr =>
      (List.range midpoint).foldl
        (fun acc2 freq_ctr =>
          Function.update acc2 freq_ctr (acc2 freq_ctr + panAt queue sample_ctr freq_ctr))
        acc)
    (fun _ => 0)

/-- The division loop of upmixer.rs lines 472-474, producing the vector of
averaged pans. -/
def averagePans (window_size midpoint : ℕ) (queue : List TransformedWindowAndPans) :
    List FrequencyPosition :=
  (List.range midpoint).map fun freq_ctr =>
    { back_to_front := sumPansFun window_size midpoint queue freq_ctr / (window_size : ℚ) }

/-- One iteration of the averaging while loop (upmixer.rs lines 457-498
without the final pop): the averaged window carries the tag and transforms of
the queue entry at index midpoint and the averaged pans. -/
def averageStep (window_size : ℕ) (queue : List TransformedWindowAndPans) :
    TransformedWindowAndPans :=
  let midpoint := window_size / 2
  let midpoint_transformed_window_and_pans := queue.getD midpoint emptyWindowAndPans
  { sample_ctr := midpoint_transformed_window_and_pans.sample_ctr
    left_transformed := midpoint_transformed_window_and_pans.left_transformed
    right_transformed := midpoint_transformed_window_and_pans.right_transformed
    frequency_positions := averagePans window_size midpoint queue }

/-- The averaging while loop of upmixer.rs lines 457-501: while the ordered
queue holds at least window_size entries, push one averaged window onto the
averages queue and pop the front of the ordered queue.  The fuel is the
queue length, which bounds the number of pops the loop can make; the
0 < window_size conjunct records that the loop would never terminate for an
empty window, a size the program cannot produce. -/
def averageLoopFuel : ℕ → ℕ → List TransformedWindowAndPans →
    List TransformedWindowAndPans →
    List TransformedWindowAndPans × List TransformedWindowAndPans
  | 0, _, queue, averages_queue => (queue, averages_queue)
  | fuel + 1, window_size, queue, averages_queue =>
    if window_size ≤ queue.length ∧ 0 < window_size then
      averageLoopFuel fuel window_size queue.tail
        (averages_queue ++ [averageStep window_size queue])
    else (queue, averages_queue)

/-- The averaging loop run on a queue, with fuel equal to the queue length. -/
def averageLoop (window_size : ℕ) (queue averages_queue : List TransformedWindowAndPans) :
    List TransformedWindowAndPans × List TransformedWindowAndPans :=
  averageLoopFuel queue.length window_size queue averages_queue

theorem innerPanFold_apply (f : ℕ → ℚ) :
    ∀ (midpoint : ℕ) (acc : ℕ → ℚ) (j : ℕ),
      ((List.range midpoint).foldl
        (fun acc2 freq_ctr => Function.update acc2 freq_ctr (acc2 freq_ctr + f freq_ctr))
        acc) j = if j < midpoint then acc j + f j else acc j := by
  intro midpoint
  induction midpoint with
  | zero => intro acc j; simp
  | succ m ih =>
    intro acc j
    rw [List.range_succ, List.foldl_append, List.foldl_cons, List.foldl_nil]
    by_cases hj : j = m
    · subst hj
      rw [Function.update_same, ih acc j, if_neg (lt_irrefl j), if_pos (Nat.lt_succ_self j)]
    · rw [Function.update_noteq hj, ih acc j]
      rcases Nat.lt_or_ge j m with h | h
      · rw [if_pos h, if_pos (by omega)]
      · rw [if_neg (by omega), if_neg (by omega)]

theorem sumPansFun_apply (midpoint : ℕ) (queue : List TransformedWindowAndPans) :
    ∀ (window_size j : ℕ),
      sumPansFun window_size midpoint queue j =
        if j < midpoint then ∑ i ∈ Finset.range window_size, panAt queue i j else 0 := by
  intro window_size
  induction window_size with
  | zero => intro j; simp [sumPansFun]
  | succ n ih =>
    intro j
    have hstep : sumPansFun (n + 1) midpoint queue =
        (List.range midpoint).foldl
          (fun acc2 freq_ctr =>
            Function.update acc2 freq_ctr (acc2 freq_ctr + panAt queue n freq_ctr))
          (sumPansFun n midpoint queue) := by
      rw [sumPansFun, sumPansFun, List.range_succ, List.foldl_append, List.foldl_cons,
        List.foldl_nil]
    rw [hstep, innerPanFold_apply]
    by_cases hj : j < midpoint
    · rw [if_pos hj, ih j, if_pos hj, if_pos hj, Finset.sum_range_succ]
    · rw [if_neg hj, ih j, if_neg hj, if_neg hj]

theorem averagePans_getD (window_size midpoint freq_ctr : ℕ)
    (queue : List TransformedWindowAndPans) (hk : freq_ctr < midpoint) :
    (averagePans window_size midpoint queue).getD freq_ctr { back_to_front := 0 } =
      { back_to_front :=
          sumPansFun window_size midpoint queue freq_ctr / (window_size : ℚ) } := by
  unfold averagePans
  rw [List.getD_eq_getElem?_getD, List.getElem?_map, List.getElem?_range hk]
  rfl

/-- C4: with at least window_size entries queued, one averaging iteration
produces a window whose pan at each bin is the arithmetic mean of that bin
over the first window_size queue entries, whose tag and transforms are those
of the queue entry at index window_size / 2, and the loop then continues on
the queue with exactly its oldest entry removed. -/
theorem C4_average_and_slide (window_size freq_ctr : ℕ)
    (queue averages_queue : List TransformedWindowAndPans)
    (hlen : window_size ≤ queue.length) (hk : freq_ctr < window_size / 2) :
    (averageStep window_size queue).frequency_positions.getD freq_ctr
        { back_to_front := 0 } =
      { back_to_front :=
          (∑ i ∈ Finset.range window_size, panAt queue i freq_ctr) / (window_size : ℚ) } ∧
    (averageStep window_size queue).sample_ctr =
      (queue.getD (window_size / 2) emptyWindowAndPans).sample_ctr ∧
    (averageStep window_size queue).left_transformed =
      (queue.getD (window_size / 2) emptyWindowAndPans).left_transformed ∧
    (averageStep window_size queue).right_transformed =
      (queue.getD (window_size / 2) emptyWindowAndPans).right_transformed ∧
    averageLoop window_size queue averages_queue =
      averageLoop window_size queue.tail
        (averages_queue ++ [averageStep window_size queue]) := by
  have hpos : 0 < window_size := by omega
  refine ⟨?_, rfl, rfl, rfl, ?_⟩
  · show (averagePans window_size (window_size / 2) queue).getD freq_ctr
        { back_to_front := 0 } = _
    rw [averagePans_getD window_size (window_size / 2) freq_ctr queue hk,
      sumPansFun_apply (window_size / 2) queue window_size freq_ctr, if_pos hk]
  · obtain ⟨n, hn⟩ : ∃ n, queue.length = n + 1 := ⟨queue.length - 1, by omega⟩
    rw [averageLoop, averageLoop, List.length_tail, hn, Nat.add_sub_cancel]
    rw [show averageLoopFuel (n + 1) window_size queue averages_queue =
        if window_size ≤ queue.length ∧ 0 < window_size then
          averageLoopFuel n window_size queue.tail
            (averages_queue ++ [averageStep window_size queue])
        else (queue, averages_queue) from rfl]
    rw [if_pos ⟨hlen, hpos⟩]

/-- A two-entry queue for the C4 witness. -/
def sampleWindowA : TransformedWindowAndPans :=
  { sample_ctr := 3, left_transformed := [(1, 0)], right_transformed := [(0, 1)],
    frequency_positions := [{ back_to_front := 1 / 2 }] }

/-- Second entry of the C4 witness queue; it sits at the midpoint index. -/
def sampleWindowB : TransformedWindowAndPans :=
  { sample_ctr := 7, left_transformed := [(2, 5)], right_transformed := [(4, 4)],
    frequency_positions := [{ back_to_front := 1 / 4 }] }

/-- Witness for C4: window_size 2 on a concrete two-entry queue; the averaged
pan evaluates to (1/2 + 1/4) / 2 = 3/8, and the carried tag is that of the
midpoint entry. -/
theorem C4_average_and_slide_witness :
    2 ≤ ([sampleWindowA, sampleWindowB] : List TransformedWindowAndPans).length ∧
    (0 : ℕ) < 2 / 2 ∧
    ((averageStep 2 [sampleWindowA, sampleWindowB]).frequency_positions.getD 0
        { back_to_front := 0 } =
      { back_to_front :=
          (∑ i ∈ Finset.range 2, panAt [sampleWindowA, sampleWindowB] i 0) / (2 : ℚ) } ∧
      (averageStep 2 [sampleWindowA, sampleWindowB]).sample_ctr =
        (([sampleWindowA, sampleWindowB] : List TransformedWindowAndPans).getD (2 / 2)
          emptyWindowAndPans).sample_ctr ∧
      (averageStep 2 [sampleWindowA, sampleWindowB]).left_transformed =
        (([sampleWindowA, sampleWindowB] : List TransformedWindowAndPans).getD (2 / 2)
          emptyWindowAndPans).left_transformed ∧
      (averageStep 2 [sampleWindowA, sampleWindowB]).right_transformed =
        (([sampleWindowA, sampleWindowB] : List TransformedWindowAndPans).getD (2 / 2)
          emptyWindowAndPans).right_transformed ∧
      averageLoop 2 [sampleWindowA, sampleWindowB] [] =
        averageLoop 2 ([sampleWindowA, sampleWindowB] : List TransformedWindowAndPans).tail
          ([] ++ [averageStep 2 [sampleWindowA, sampleWindowB]])) ∧
    (averageStep 2 [sampleWindowA, sampleWindowB]).frequency_positions =
      [{ back_to_front := 3 / 8 }] ∧
    (averageStep 2 [sampleWindowA, sampleWindowB]).sample_ctr = 7 :=
  ⟨by decide, by decide,
   C4_average_and_slide 2 0 [sampleWindowA, sampleWindowB] [] (by decide) (by decide),
   by
     show averagePans 2 (2 / 2) [sampleWindowA, sampleWindowB] = _
     norm_num [averagePans, sumPansFun, panAt, sampleWindowA, sampleWindowB,
       List.range_succ, Function.update_apply, emptyWindowAndPans],
   rfl⟩

/- ===================== upmixer.rs: pan estimation ===================== -/

/-- The per-bin back-to-front estimation of transform_and_measure_pans
(upmixer.rs lines 381-403): the phase of each coefficient comes from
to_polar (atan2, with range (-pi, pi], modelled exactly by Complex.arg), the
raw difference is folded once and divided by pi. -/
noncomputable def back_to_front (left right : ℂ) : ℝ :=
  let left_phase := Complex.arg left
  let right_phase := Complex.arg right
  -- Will range from 0 to tau
  let phase_difference_tau := |left_phase - right_phase|
  let phase_difference_pi :=
    if phase_difference_tau > Real.pi then
      Real.pi - (2 * Real.pi - phase_difference_tau)
    else phase_difference_tau
  phase_difference_pi / Real.pi

/-- The unit complex number at angle theta, used to build concrete
coefficients with a prescribed to_polar phase. -/
noncomputable def phaseVector (θ : ℝ) : ℂ :=
  Complex.cos θ + Complex.sin θ * Complex.I

/-- C1: the claim (and the comments in the source) say a raw phase
difference near 2 pi is in phase and must map back toward 0 (front).  At a
left coefficient of phase pi and a right coefficient of phase -3 pi / 4 the
raw difference is 7 pi / 4 - a wrapped (circular) difference of pi / 4, so
the claimed value is 1/4 - but the code's fold computes
pi - (2 pi - 7 pi / 4) = 3 pi / 4 and yields 3/4, steering a nearly in-phase
tone mostly to the back. -/
theorem C1_back_to_front_eval :
    back_to_front (-1) (phaseVector (-(3 * Real.pi / 4))) = 3 / 4 ∧
    (2 * Real.pi -
        |Complex.arg (-1) - Complex.arg (phaseVector (-(3 * Real.pi / 4)))|) / Real.pi =
      1 / 4 ∧
    (3 : ℝ) / 4 ≠ 1 / 4 := by
  have hpi := Real.pi_pos
  have harg1 : Complex.arg (-1) = Real.pi := Complex.arg_neg_one
  have harg2 : Complex.arg (phaseVector (-(3 * Real.pi / 4))) = -(3 * Real.pi / 4) := by
    unfold phaseVector
    exact Complex.arg_cos_add_sin_mul_I ⟨by linarith, by linarith⟩
  have habs : |Real.pi - -(3 * Real.pi / 4)| = 7 * Real.pi / 4 := by
    rw [abs_of_pos (by linarith)]
    ring
  refine ⟨?_, ?_, by norm_num⟩
  · simp only [back_to_front, harg1, harg2, habs]
    rw [if_pos (by linarith)]
    rw [div_eq_iff (ne_of_gt hpi)]
    ring
  · rw [harg1, harg2, habs, div_eq_iff (ne_of_gt hpi)]
    ring

/- ===================== panner_and_writer.rs: scale and gain ===================== -/

/-- Decibel to linear amplitude conversion (options.rs lines 358-360). -/
noncomputable def db_to_amplitude (db : ℝ) : ℝ :=
  (10 : ℝ) ^ (db / 20)

/-- The per-sample-set channel values handed to the wav writer; channels the
layout does not produce are None (wave_stream SamplesByChannel, restricted to
the six channels the program fills). -/
structure SamplesByChannel where
  front_left : ℝ
  front_right : ℝ
  back_left : ℝ
  back_right : ℝ
  low_frequency : Option ℝ
  front_center : Option ℝ

/-- The gain computed at the top of write_samples_in_window
(panner_and_writer.rs line 485) from the stored headroom option. -/
noncomputable def write_gain (headroom : Option ℚ) : ℝ :=
  db_to_amplitude ((0 : ℝ) - ((headroom.getD 0 : ℚ) : ℝ))

/-- The arithmetic of write_samples_in_window (panner_and_writer.rs lines
485-525): the four main channels are scaled and multiplied by the gain; the
LFE and center samples are only scaled. -/
noncomputable def write_samples_in_window (scale : ℝ) (headroom : Option ℚ)
    (left_front_sample right_front_sample left_rear_sample right_rear_sample : ℝ)
    (lfe_sample center_sample : Option ℝ) : SamplesByChannel :=
  let gain := write_gain headroom
  { front_left := scale * left_front_sample * gain
    front_right := scale * right_front_sample * gain
    back_left := scale * left_rear_sample * gain
    back_right := scale * right_rear_sample * gain
    low_frequency := lfe_sample.map (fun lfe_s => scale * lfe_s)
    front_center := center_sample.map (fun center_s => scale * center_s) }

/-- C6: the claim says every written channel is scaled by gain
10^(-h/20) < 1 for headroom h > 0.  With h = 20 the parser stores -20, the
writer then computes db_to_amplitude(0 - (-20)) = 10^(+1) = 10 > 1 - an
amplification, not the claimed attenuation of 1/10 - and the LFE and center
channels receive no gain factor at all. -/
theorem C6_headroom_gain_eval :
    parseHeadroomFlagValue 20 = some (-20) ∧
    write_gain (some (-20)) = 10 ∧
    1 < write_gain (some (-20)) ∧
    (write_samples_in_window 1 (some (-20)) 1 1 1 1 (some 1) (some 1)).front_left = 10 ∧
    (write_samples_in_window 1 (some (-20)) 1 1 1 1 (some 1) (some 1)).low_frequency =
      some 1 ∧
    (write_samples_in_window 1 (some (-20)) 1 1 1 1 (some 1) (some 1)).front_center =
      some 1 := by
  have hg : write_gain (some (-20)) = 10 := by
    unfold write_gain db_to_amplitude
    have h1 : ((0 : ℝ) - (((some (-20 : ℚ)).getD 0 : ℚ) : ℝ)) / 20 = 1 := by
      simp only [Option.getD_some]
      push_cast
      norm_num
    rw [h1, Real.rpow_one]
  refine ⟨by norm_num [parseHeadroomFlagValue], hg, by rw [hg]; norm_num, ?_, ?_, ?_⟩
  · show 1 * 1 * write_gain (some (-20)) = 10
    rw [hg]; ring
  · show (some (1 : ℝ)).map (fun lfe_s => 1 * lfe_s) = some 1
    simp
  · show (some (1 : ℝ)).map (fun center_s => 1 * center_s) = some 1
    simp

/- ===================== panner_and_writer.rs: LFE gain curve ===================== -/

/-- The frequency of a transform bin (panner_and_writer.rs lines 67-68):
wavelength is window_size / transform_index, frequency is
sample_rate / wavelength. -/
def bin_frequency (window_size sample_rate transform_index : ℕ) : ℚ :=
  let wavelength : ℚ := (window_size : ℚ) / (transform_index : ℚ)
  (sample_rate : ℚ) / wavelength

/-- The level written for one in-loop bin of the LFE curve
(panner_and_writer.rs lines 70-77): 1 below LFE_FULL, a raised cosine
between LFE_FULL and LFE_START, 0 above. -/
noncomputable def lfe_level_value (window_size sample_rate transform_index : ℕ) : ℝ :=
  let frequency := bin_frequency window_size sample_rate transform_index
  if frequency < LFE_FULL then 1
  else if frequency < LFE_START then
    Real.cos ((((frequency - LFE_FULL) / LFE_FULL : ℚ) : ℝ) * (Real.pi / 2))
  else 0

/-- One iteration of the LFE-curve loop (panner_and_writer.rs lines 79-80):
writes the level at the bin and at its mirror index. -/
noncomputable def lfeFoldStep (window_size sample_rate : ℕ) (levels : ℕ → ℝ)
    (transform_index : ℕ) : ℕ → ℝ :=
  Function.update
    (Function.update levels transform_index
      (lfe_level_value window_size sample_rate transform_index))
    (window_size - transform_index)
    (lfe_level_value window_size sample_rate transform_index)

/-- The LFE gain curve built by PannerAndWriter::new (panner_and_writer.rs
lines 51-86): a zero-initialised vector of window_size levels (modelled as a
function), entry 0 set to 1, the midpoint set to 0, then the loop over bins
1..(midpoint - 2) filling levels and their mirrors. -/
noncomputable def lfe_levels (window_size sample_rate : ℕ) : ℕ → ℝ :=
  let window_midpoint := window_size / 2
  let levels0 : ℕ → ℝ := fun _ => 0
  let levels1 := Function.update levels0 0 1
  let levels2 := Function.update levels1 window_midpoint 0
  (List.range' 1 ((window_midpoint - 2) - 1)).foldl
    (lfeFoldStep window_size sample_rate) levels2

theorem lfeLoop_untouched (window_size sample_rate : ℕ) :
    ∀ (K : ℕ) (levels : ℕ → ℝ) (p : ℕ),
      (p = 0 ∨ K < p) →
      (∀ ti, 1 ≤ ti → ti ≤ K → window_size - ti ≠ p) →
      ((List.range' 1 K).foldl (lfeFoldStep window_size sample_rate) levels) p =
        levels p := by
  intro K
  induction K with
  | zero => intro levels p _ _; rfl
  | succ K ih =>
    intro levels p hp hm
    rw [List.range'_concat, List.foldl_append, List.foldl_cons, List.foldl_nil]
    have hme : window_size - (1 + 1 * K) ≠ p := by
      have := hm (1 + 1 * K) (by omega) (by omega)
      omega
    rw [lfeFoldStep, Function.update_noteq (Ne.symm hme),
      Function.update_noteq (by omega : p ≠ 1 + 1 * K)]
    exact ih levels p (by omega) (fun ti h1 h2 => hm ti h1 (by omega))

theorem lfeLoop_value (window_size sample_rate : ℕ) :
    ∀ (K : ℕ) (levels : ℕ → ℝ) (p : ℕ),
      1 ≤ p → p ≤ K →
      (∀ ti, 1 ≤ ti → ti ≤ K → ti ≠ p → window_size - ti ≠ p) →
      window_size - p ≠ p →
      ((List.range' 1 K).foldl (lfeFoldStep window_size sample_rate) levels) p =
        lfe_level_value window_size sample_rate p := by
  intro K
  induction K with
  | zero => intro _ p h1 h2 _ _; omega
  | succ K ih =>
    intro levels p h1 h2 hm hself
    rw [List.range'_concat, List.foldl_append, List.foldl_cons, List.foldl_nil,
      lfeFoldStep]
    by_cases hpk : p = 1 + 1 * K
    · rw [← hpk, Function.update_noteq (Ne.symm hself), Function.update_same]
    · have hme : window_size - (1 + 1 * K) ≠ p := hm (1 + 1 * K) (by omega) (by omega) (by omega)
      rw [Function.update_noteq (Ne.symm hme), Function.update_noteq hpk]
      exact ih levels p h1 (by omega) (fun ti a b c => hm ti a (by omega) c) hself

/-- C7 counterexample to the claim as stated: with window_size 8 and sample
rate 50 Hz, bin 2 has frequency 12.5 Hz, below the full cutoff of 20 Hz, so
the claim requires gain exactly 1.0 there; but the loop stops at bin
midpoint - 3 = 1, leaving bin 2 at its zero initialisation. -/
theorem C7_low_bin_not_full :
    bin_frequency 8 50 2 < LFE_FULL ∧
    lfe_levels 8 50 2 = 0 ∧
    (0 : ℝ) ≠ 1 := by
  refine ⟨by norm_num [bin_frequency, LFE_FULL], ?_, by norm_num⟩
  show (List.range' 1 ((8 / 2 - 2) - 1)).foldl (lfeFoldStep 8 50)
    (Function.update (Function.update (fun _ => (0 : ℝ)) 0 1) (8 / 2) 0) 2 = 0
  rw [show List.range' 1 ((8 / 2 - 2) - 1) = [1] from rfl, List.foldl_cons, List.foldl_nil,
    lfeFoldStep, Function.update_noteq (by norm_num), Function.update_noteq (by norm_num),
    Function.update_noteq (by norm_num), Function.update_noteq (by norm_num)]

/-- C7 amended: the LFE curve is 1.0 at bin 0 and at every loop-covered bin
(index between 1 and midpoint - 3) with frequency below the 20 Hz full
cutoff; it is a strictly decreasing raised cosine across loop-covered bins
with frequency in [20, 40); it is 0.0 at every loop-covered bin with
frequency at or above the 40 Hz start cutoff; and the bins midpoint - 2 and
midpoint - 1, which the loop never reaches, and the Nyquist bin midpoint are
0.0 regardless of their frequency. -/
theorem C7_lfe_rolloff_amended (window_size sample_rate : ℕ)
    (hws : 6 ≤ window_size) (hsr : 0 < sample_rate) :
    lfe_levels window_size sample_rate 0 = 1 ∧
    (∀ ti, 1 ≤ ti → ti ≤ window_size / 2 - 3 →
      bin_frequency window_size sample_rate ti < LFE_FULL →
      lfe_levels window_size sample_rate ti = 1) ∧
    (∀ t1 t2, 1 ≤ t1 → t2 ≤ window_size / 2 - 3 → t1 < t2 →
      LFE_FULL ≤ bin_frequency window_size sample_rate t1 →
      bin_frequency window_size sample_rate t2 < LFE_START →
      lfe_levels window_size sample_rate t2 < lfe_levels window_size sample_rate t1) ∧
    (∀ ti, 1 ≤ ti → ti ≤ window_size / 2 - 3 →
      LFE_START ≤ bin_frequency window_size sample_rate ti →
      lfe_levels window_size sample_rate ti = 0) ∧
    lfe_levels window_size sample_rate (window_size / 2 - 2) = 0 ∧
    lfe_levels window_size sample_rate (window_size / 2 - 1) = 0 ∧
    lfe_levels window_size sample_rate (window_size / 2) = 0 := by
  have hfreq_eq : ∀ ti : ℕ, 1 ≤ ti →
      bin_frequency window_size sample_rate ti =
        (sample_rate : ℚ) * (ti : ℚ) / (window_size : ℚ) := by
    intro ti hti
    have hti0 : (ti : ℚ) ≠ 0 := by positivity
    have hws0 : (window_size : ℚ) ≠ 0 := by positivity
    unfold bin_frequency
    field_simp
  have hfreq_mono : ∀ t1 t2 : ℕ, 1 ≤ t1 → t1 < t2 →
      bin_frequency window_size sample_rate t1 < bin_frequency window_size sample_rate t2 := by
    intro t1 t2 h1 h12
    rw [hfreq_eq t1 h1, hfreq_eq t2 (by omega)]
    have hsr' : (0 : ℚ) < (sample_rate : ℚ) := by exact_mod_cast hsr
    have hws' : (0 : ℚ) < (window_size : ℚ) := by
      have : 0 < window_size := by omega
      exact_mod_cast this
    have ht : ((t1 : ℚ)) < ((t2 : ℚ)) := by exact_mod_cast h12
    gcongr
  have hmirror : ∀ p : ℕ, p ≤ window_size / 2 →
      ∀ ti, 1 ≤ ti → ti ≤ window_size / 2 - 2 - 1 → window_size - ti ≠ p := by
    intro p hp ti h1 h2
    omega
  have hvalue : ∀ p : ℕ, 1 ≤ p → p ≤ window_size / 2 - 3 →
      lfe_levels window_size sample_rate p = lfe_level_value window_size sample_rate p := by
    intro p h1 h2
    show (List.range' 1 ((window_size / 2 - 2) - 1)).foldl
      (lfeFoldStep window_size sample_rate) _ p = _
    exact lfeLoop_value window_size sample_rate _ _ p h1 (by omega)
      (fun ti a b _ => hmirror p (by omega) ti a b) (by omega)
  have huntouched : ∀ p : ℕ, p ≤ window_size / 2 → (p = 0 ∨ window_size / 2 - 3 < p) →
      lfe_levels window_size sample_rate p =
        Function.update (Function.update (fun _ => (0 : ℝ)) 0 1) (window_size / 2) 0 p := by
    intro p hp hcase
    show (List.range' 1 ((window_size / 2 - 2) - 1)).foldl
      (lfeFoldStep window_size sample_rate) _ p = _
    exact lfeLoop_untouched window_size sample_rate _ _ p (by omega)
      (hmirror p hp)
  refine ⟨?_, ?_, ?_, ?_, ?_, ?_, ?_⟩
  · rw [huntouched 0 (by omega) (Or.inl rfl),
      Function.update_noteq (by omega : (0 : ℕ) ≠ window_size / 2), Function.update_same]
  · intro ti h1 h2 hf
    rw [hvalue ti h1 h2]
    simp only [lfe_level_value]
    rw [if_pos hf]
  · intro t1 t2 h1 h2 h12 hf1 hf2
    have hf12 := hfreq_mono t1 t2 h1 h12
    have hf2low : LFE_FULL ≤ bin_frequency window_size sample_rate t2 :=
      le_trans hf1 (le_of_lt hf12)
    have hf1high : bin_frequency window_size sample_rate t1 < LFE_START :=
      lt_trans hf12 hf2
    rw [hvalue t1 h1 (by omega), hvalue t2 (by omega) h2]
    simp only [lfe_level_value]
    rw [if_neg (not_lt.mpr hf1), if_pos hf1high, if_neg (not_lt.mpr hf2low), if_pos hf2]
    have hpi := Real.pi_pos
    have hf1n : (20 : ℚ) ≤ bin_frequency window_size sample_rate t1 := hf1
    have hf2n : bin_frequency window_size sample_rate t2 < 40 := hf2
    rw [show LFE_FULL = (20 : ℚ) from rfl]
    set q1 : ℚ := (bin_frequency window_size sample_rate t1 - 20) / 20 with hq1def
    set q2 : ℚ := (bin_frequency window_size sample_rate t2 - 20) / 20 with hq2def
    have hq1nn : (0 : ℚ) ≤ q1 := by
      rw [hq1def]
      exact div_nonneg (by linarith) (by norm_num)
    have hq2lt1 : q2 < 1 := by
      rw [hq2def, div_lt_one (by norm_num)]
      linarith
    have hqlt : q1 < q2 := by
      rw [hq1def, hq2def, div_lt_div_iff_of_pos_right (by norm_num : (0:ℚ) < 20)]
      linarith [hfreq_mono t1 t2 h1 h12]
    have hr1nn : (0 : ℝ) ≤ (q1 : ℝ) := by exact_mod_cast hq1nn
    have hrlt : ((q1 : ℝ)) < ((q2 : ℝ)) := by exact_mod_cast hqlt
    have hr2lt1 : ((q2 : ℝ)) < 1 := by exact_mod_cast hq2lt1
    have hθlt : (q1 : ℝ) * (Real.pi / 2) < (q2 : ℝ) * (Real.pi / 2) := by
      have := mul_lt_mul_of_pos_right hrlt (by linarith : (0 : ℝ) < Real.pi / 2)
      linarith
    have hθ2pi : (q2 : ℝ) * (Real.pi / 2) ≤ Real.pi := by nlinarith
    have hθ1mem : (q1 : ℝ) * (Real.pi / 2) ∈ Set.Icc 0 Real.pi :=
      ⟨by positivity, by linarith⟩
    have hθ2mem : (q2 : ℝ) * (Real.pi / 2) ∈ Set.Icc 0 Real.pi :=
      ⟨by nlinarith, hθ2pi⟩
    exact Real.strictAntiOn_cos hθ1mem hθ2mem hθlt
  · intro ti h1 h2 hf
    rw [hvalue ti h1 h2]
    simp only [lfe_level_value]
    have hfn : (40 : ℚ) ≤ bin_frequency window_size sample_rate ti := hf
    rw [if_neg (not_lt.mpr (show LFE_FULL ≤ bin_frequency window_size sample_rate ti by
        rw [show LFE_FULL = (20 : ℚ) from rfl]; linarith)),
      if_neg (not_lt.mpr hf)]
  · rw [huntouched (window_size / 2 - 2) (by omega) (Or.inr (by omega)),
      Function.update_noteq (by omega), Function.update_noteq (by omega)]
  · rw [huntouched (window_size / 2 - 1) (by omega) (Or.inr (by omega)),
      Function.update_noteq (by omega), Function.update_noteq (by omega)]
  · rw [huntouched (window_size / 2) (by omega) (Or.inr (by omega)),
      Function.update_same]

/-- Witness for the amended C7 at window_size 12, sample rate 120 Hz: bin 1
(10 Hz) has gain 1, the taper strictly decreases from bin 2 (20 Hz) to bin 3
(30 Hz), and the Nyquist bin 6 has gain 0. -/
theorem C7_lfe_rolloff_amended_witness :
    (6 ≤ 12 ∧ 0 < 120) ∧
    lfe_levels 12 120 0 = 1 ∧
    lfe_levels 12 120 1 = 1 ∧
    lfe_levels 12 120 3 < lfe_levels 12 120 2 ∧
    lfe_levels 12 120 6 = 0 :=
  ⟨⟨by norm_num, by norm_num⟩,
   (C7_lfe_rolloff_amended 12 120 (by norm_num) (by norm_num)).1,
   (C7_lfe_rolloff_amended 12 120 (by norm_num) (by norm_num)).2.1 1 (by norm_num)
     (by norm_num) (by norm_num [bin_frequency, LFE_FULL]),
   (C7_lfe_rolloff_amended 12 120 (by norm_num) (by norm_num)).2.2.1 2 3 (by norm_num)
     (by norm_num) (by norm_num) (by norm_num [bin_frequency, LFE_FULL])
     (by norm_num [bin_frequency, LFE_START]),
   (C7_lfe_rolloff_amended 12 120 (by norm_num) (by norm_num)).2.2.2.2.2.2⟩

end SoftMatrix
